import Mathlib

/-!
Shallow embedding of `scripts/issue-watcher.py` (lazy-bird issue watcher).

Python strings that the code inspects character by character are modelled as
`List Char`; opaque strings that are only carried around or compared for
equality (ids, urls, commands) stay `String`.  `str.strip()` is modelled over
the ASCII whitespace characters that occur in practice; `str.split('\n')`,
`str.lstrip('#')` and `str.startswith` are modelled by the corresponding list
operations.  Python dicts keyed by section name are association lists whose
update replaces the value of an existing key.
-/

/-- Model of Python whitespace for `str.strip()` (ASCII subset). -/
def isSpace (c : Char) : Bool :=
  c = ' ' || c = '\t' || c = '\n' || c = '\r'

/-- Model of Python `str.strip()`. -/
def pyStrip (s : List Char) : List Char :=
  ((s.dropWhile isSpace).reverse.dropWhile isSpace).reverse

/-- Model of Python `str.split(sep)` for a one-character separator: split at
every occurrence, keeping empty pieces (`"".split(sep) == ['']`). -/
def splitOnChar (sep : Char) : List Char → List (List Char)
  | [] => [[]]
  | c :: rest =>
    if c = sep then [] :: splitOnChar sep rest
    else
      match splitOnChar sep rest with
      | l :: ls => (c :: l) :: ls
      | [] => [[c]]

/-- Python `body.split('\n')`. -/
def splitLines (s : List Char) : List (List Char) :=
  splitOnChar '\n' s

/-- Sections dictionary of `parse_markdown_sections`: section name ↦ kept lines. -/
abbrev Sections := List (List Char × List (List Char))

/-- Python dict assignment `sections[k] = v`: replace the value of an existing
key, otherwise append the new binding. -/
def upsert (k : List Char) (v : List (List Char)) : Sections → Sections
  | [] => [(k, v)]
  | (k', v') :: rest => if k' = k then (k, v) :: rest else (k', v') :: upsert k v rest

/-- Python `if current_section: sections[current_section] = current_content`.
`current_section` is falsy both when it is `None` and when it is the empty
string, so only a nonempty section name is saved. -/
def flush (cur : Option (List Char)) (content : List (List Char)) (sections : Sections) :
    Sections :=
  match cur with
  | some (c :: cs) => upsert (c :: cs) content sections
  | _ => sections

/-- The list-marker test of line 242:
`stripped.startswith(('1.', ..., '9.', '-', '*', '[ ]', '[x]'))`. -/
def isListStart (s : List Char) : Bool :=
  ['1', '.'].isPrefixOf s || ['2', '.'].isPrefixOf s || ['3', '.'].isPrefixOf s ||
  ['4', '.'].isPrefixOf s || ['5', '.'].isPrefixOf s || ['6', '.'].isPrefixOf s ||
  ['7', '.'].isPrefixOf s || ['8', '.'].isPrefixOf s || ['9', '.'].isPrefixOf s ||
  ['-'].isPrefixOf s || ['*'].isPrefixOf s ||
  ['[', ' ', ']'].isPrefixOf s || ['[', 'x', ']'].isPrefixOf s

/-- Line 242's full guard `stripped and stripped.startswith((...))` applied to
the already stripped line. -/
def keepLine (s : List Char) : Bool :=
  !s.isEmpty && isListStart s

/-- Section name of a header line: `line.strip().lstrip('#').strip()`. -/
def sectionName (line : List Char) : List Char :=
  pyStrip ((pyStrip line).dropWhile (fun c => c = '#'))

/-- The loop of `ProjectWatcher.parse_markdown_sections` (lines 229-247), with
the loop state (`current_section`, `current_content`, `sections`) made
explicit.  A header line is one whose stripped form `startswith('##')`. -/
def parseLines : List (List Char) → Option (List Char) → List (List Char) → Sections → Sections
  | [], cur, content, sections => flush cur content sections
  | line :: rest, cur, content, sections =>
    if ['#', '#'].isPrefixOf (pyStrip line) then
      parseLines rest (some (sectionName line)) [] (flush cur content sections)
    else
      match cur with
      | some (c :: cs) =>
        let stripped := pyStrip line
        if keepLine stripped then
          parseLines rest (some (c :: cs)) (content ++ [stripped]) sections
        else
          parseLines rest (some (c :: cs)) content sections
      | _ => parseLines rest cur content sections

/-- Embeds `ProjectWatcher.parse_markdown_sections` (lines 223-249). -/
def parse_markdown_sections (body : List Char) : Sections :=
  parseLines (splitLines body) none [] []

/-- Python `sections.get(name, [])`. -/
def sectionsGet (s : Sections) (k : List Char) : List (List Char) :=
  match s.find? (fun p => p.1 = k) with
  | some p => p.2
  | none => []

/-- Static configuration of one project as `ProjectWatcher.__init__` reads it,
plus the optional keys `parse_issue`, `fetch_gitlab_issues` and
`update_gitlab_labels` fetch with `.get`.  `gitlab_project_id` is the optional
numeric `project_id` config entry used by the GitLab client. -/
structure ProjectConfig where
  id : String
  name : String
  ptype : String
  path : String
  platform : String
  repository : String
  test_command : Option String
  build_command : Option String
  lint_command : Option String
  format_command : Option String
  gitlab_project_id : Option Nat
deriving DecidableEq

/-- One issue as the fetchers return it (lines 123-130 / 169-176).
`created_at` is the creation timestamp, modelled as a number. -/
structure RawIssue where
  id : Nat
  title : String
  body : List Char
  labels : List String
  url : String
  created_at : Nat
deriving DecidableEq

/-- The task dictionary built by `ProjectWatcher.parse_issue` (lines 201-221). -/
structure ParsedTask where
  issue_id : Nat
  title : String
  body : List Char
  steps : List (List Char)
  acceptance_criteria : List (List Char)
  complexity : String
  url : String
  queued_at : String
  platform : String
  repository : String
  project_id : String
  project_name : String
  project_type : String
  project_path : String
  test_command : Option String
  build_command : Option String
  lint_command : Option String
  format_command : Option String
deriving DecidableEq

/-- The complexity loop of lines 185-189: first label equal to one of
`simple`, `medium`, `complex` wins; default `medium`. -/
def complexityOf (labels : List String) : String :=
  (labels.find? (fun l => l = "simple" || l = "medium" || l = "complex")).getD "medium"

/-- Embeds `ProjectWatcher.parse_issue` (lines 180-221).  The call
`datetime.utcnow().isoformat()` is modelled by the explicit parameter `now`:
it is the value the wall clock yields at the moment of the call. -/
def parse_issue (now : String) (cfg : ProjectConfig) (issue : RawIssue) : ParsedTask :=
  let sections := parse_markdown_sections issue.body
  { issue_id := issue.id
    title := issue.title
    body := issue.body
    steps := sectionsGet sections "Detailed Steps".toList
    acceptance_criteria := sectionsGet sections "Acceptance Criteria".toList
    complexity := complexityOf issue.labels
    url := issue.url
    queued_at := now
    platform := cfg.platform
    repository := cfg.repository
    project_id := cfg.id
    project_name := cfg.name
    project_type := cfg.ptype
    project_path := cfg.path
    test_command := cfg.test_command
    build_command := cfg.build_command
    lint_command := cfg.lint_command
    format_command := cfg.format_command }

/-- One outbound label-mutation call of `update_github_labels` /
`update_gitlab_labels`.  A GitLab update carries the full replacement label
set of line 308-313 (`[l for l in labels if l != 'ready'] + ['processing']`). -/
inductive LabelEffect where
  | ghRemoveReady (repo : String) (issueId : Nat)
  | ghAddInQueue (repo : String) (issueId : Nat)
  | glSetLabels (projectId : Nat) (issueId : Nat) (labels : List String)
deriving DecidableEq

/-- Python `self.repository.rstrip('/')`. -/
def stripTrailingSlashes (s : List Char) : List Char :=
  (s.reverse.dropWhile (fun c => c = '/')).reverse

/-- The `owner/repo` string as `update_github_labels` computes it from
`repository.rstrip('/').split('/')` via indices `[-2]` and `[-1]`; `none` when
the split has fewer than two parts (the resulting `IndexError` is swallowed by
the `try/except` of `update_issue_labels`). -/
def repoNameOf (repository : String) : Option String :=
  match (splitOnChar '/' (stripTrailingSlashes repository.data)).reverse with
  | repo :: owner :: _ => some (String.mk owner ++ "/" ++ String.mk repo)
  | _ => none

/-- Embeds `ProjectWatcher.update_github_labels` (lines 261-296): two independent
`gh issue edit` calls, remove `ready` then add `in-queue`; their success or
failure is only logged and never changes watcher state. -/
def update_github_labels (cfg : ProjectConfig) (issue : RawIssue) : List LabelEffect :=
  match repoNameOf cfg.repository with
  | some repoName => [.ghRemoveReady repoName issue.id, .ghAddInQueue repoName issue.id]
  | none => []

/-- Python truthiness of `project_id = self.project_config.get('project_id')`
followed by `if not project_id`: both a missing key and the value `0` count as
not configured. -/
def configuredGitlabId (cfg : ProjectConfig) : Option Nat :=
  match cfg.gitlab_project_id with
  | some 0 => none
  | some n => some n
  | none => none

/-- Embeds `ProjectWatcher.update_gitlab_labels` (lines 298-317): without a configured
numeric `project_id` it logs a warning and returns, issuing no call; otherwise
it issues one `PUT` replacing the label set. -/
def update_gitlab_labels (cfg : ProjectConfig) (issue : RawIssue) : List LabelEffect :=
  match configuredGitlabId cfg with
  | none => []
  | some pid =>
    [.glSetLabels pid issue.id ((issue.labels.filter (fun l => l ≠ "ready")) ++ ["processing"])]

/-- Embeds `ProjectWatcher.update_issue_labels` (lines 251-259): dispatch on platform;
any exception is caught and logged, so the call never fails upward. -/
def update_issue_labels (cfg : ProjectConfig) (issue : RawIssue) : List LabelEffect :=
  if cfg.platform = "github" then update_github_labels cfg issue
  else if cfg.platform = "gitlab" then update_gitlab_labels cfg issue
  else []

/-- External behaviour of the GitLab HTTP API as `fetch_gitlab_issues` sees it:
`lookupId` is the outcome of `GET /projects/:path` (`none` models a failed
request), `issuesFor pid` the parsed issue list of `GET /projects/pid/issues`. -/
structure GitLabApi where
  lookupId : Option Nat
  issuesFor : Nat → List RawIssue

/-- Embeds `ProjectWatcher.fetch_gitlab_issues` (lines 134-178): use the configured
numeric project id when present, otherwise resolve it from the repository path
by API lookup; a failed lookup yields the empty list. -/
def fetch_gitlab_issues (api : GitLabApi) (cfg : ProjectConfig) : List RawIssue :=
  match configuredGitlabId cfg with
  | some pid => api.issuesFor pid
  | none =>
    match api.lookupId with
    | some pid => api.issuesFor pid
    | none => []

/-- Filesystem outcomes that `IssueWatcher.queue_task` can observe.
`primaryMkdirOk` is true when `mkdir -p` of the system-wide queue directory
raises no `PermissionError` (in particular whenever the directory already
exists, writable or not); `primaryWrite f` / `fallbackWrite f` tell whether
writing file `f` in the respective directory succeeds. -/
structure FsEnv where
  primaryMkdirOk : Bool
  fallbackMkdirOk : Bool
  primaryWrite : String → Bool
  fallbackWrite : String → Bool

def primaryQueueDir : String := "/var/lib/lazy_birtd/queue"

/-- Model of `Path.home() / '.config' / 'lazy_birtd' / 'queue'`; the home directory is
abbreviated to `~`. -/
def fallbackQueueDir : String := "~/.config/lazy_birtd/queue"

/-- The artifact name `f"task-{project_id}-{issue_id}.json"` (lines 471-473). -/
def taskFileName (t : ParsedTask) : String :=
  "task-" ++ t.project_id ++ "-" ++ toString t.issue_id ++ ".json"

/-- Queue directory contents: file name ↦ task; `write_text` overwrites. -/
def writeFile (q : List (String × ParsedTask)) (f : String) (t : ParsedTask) :
    List (String × ParsedTask) :=
  match q with
  | [] => [(f, t)]
  | (f', t') :: rest => if f' = f then (f, t) :: rest else (f', t') :: writeFile rest f t

/-- Embeds `IssueWatcher.queue_task` (lines 458-480): resolve the queue directory
(falling back to the user directory only when creating the system-wide one
raises `PermissionError`), then write the task file; a write failure is logged
and re-raised (`.error`). -/
def queue_task (env : FsEnv) (q : List (String × ParsedTask)) (t : ParsedTask) :
    Except Unit (List (String × ParsedTask) × String) :=
  if env.primaryMkdirOk then
    let file := primaryQueueDir ++ "/" ++ taskFileName t
    if env.primaryWrite file then .ok (writeFile q file t, file) else .error ()
  else if env.fallbackMkdirOk then
    let file := fallbackQueueDir ++ "/" ++ taskFileName t
    if env.fallbackWrite file then .ok (writeFile q file t, file) else .error ()
  else .error ()

/-- The orchestrator's mutable state: the persisted dedup set
`processed_issues` and the queue directory contents. -/
structure WatcherState where
  processed : List String
  queue : List (String × ParsedTask)
deriving DecidableEq

/-- Observable events of one round, in program order. -/
inductive Effect where
  | fetched (projectId : String)
  | published (file : String) (issueId : Nat) (createdAt : Nat)
  | label (e : LabelEffect)
  | dedupAdded (key : String)
deriving DecidableEq

/-- The dedup key `f"{project_watcher.project_id}:{issue['id']}"` (lines 504, 526). -/
def dedupKey (cfg : ProjectConfig) (issueId : Nat) : String :=
  cfg.id ++ ":" ++ toString issueId

/-- Python `set.add`. -/
def setAdd (p : List String) (k : String) : List String :=
  if k ∈ p then p else p ++ [k]

/-- The dedup filter of lines 502-506: keep the fetched issues whose key is
not yet in `processed_issues`. -/
def filterNew (cfg : ProjectConfig) (processed : List String) (issues : List RawIssue) :
    List RawIssue :=
  issues.filter (fun i => !decide (dedupKey cfg i.id ∈ processed))

/-- The per-issue body of the loop at lines 513-530: parse, queue (a failure
propagates and aborts), best-effort label update, record the dedup key, and
persist.  Returns the new state and the trace of effects. -/
def processIssue (env : FsEnv) (cfg : ProjectConfig) (now : String) (st : WatcherState)
    (issue : RawIssue) : Except Unit (WatcherState × List Effect) :=
  let parsed := parse_issue now cfg issue
  match queue_task env st.queue parsed with
  | .error _ => .error ()
  | .ok (q', file) =>
    let labelFx := update_issue_labels cfg issue
    let key := dedupKey cfg issue.id
    .ok ({ processed := setAdd st.processed key, queue := q' },
      Effect.published file issue.id issue.created_at ::
        labelFx.map Effect.label ++ [Effect.dedupAdded key])

/-- Sequential processing of the filtered issues of one project; the first
exception aborts the remainder of this project's batch (the boolean flags
that the per-project boundary caught an exception) but keeps the state
mutations already performed. -/
def processIssues (env : FsEnv) (cfg : ProjectConfig) (now : String) :
    WatcherState → List RawIssue → WatcherState × List Effect × Bool
  | st, [] => (st, [], false)
  | st, issue :: rest =>
    match processIssue env cfg now st issue with
    | .error _ => (st, [], true)
    | .ok (st', fx) =>
      let r := processIssues env cfg now st' rest
      (r.1, fx ++ r.2.1, r.2.2)

/-- One project's slice of a round (lines 497-533): fetch (the fetched list is
an input, the platform client being external), dedup-filter, then process each
surviving issue; the boolean records whether the `except` at line 532 fired. -/
def processProject (env : FsEnv) (cfg : ProjectConfig) (now : String) (st : WatcherState)
    (fetched : List RawIssue) : WatcherState × List Effect × Bool :=
  let r := processIssues env cfg now st (filterNew cfg st.processed fetched)
  (r.1, Effect.fetched cfg.id :: r.2.1, r.2.2)

/-- One full round of `IssueWatcher.run` over the configured projects in
order; each project's exception is caught at its boundary and the loop
continues with the next project. -/
def runRound (env : FsEnv) (now : String) :
    WatcherState → List (ProjectConfig × List RawIssue) → WatcherState × List Effect
  | st, [] => (st, [])
  | st, (cfg, fetched) :: rest =>
    let r := processProject env cfg now st fetched
    let r2 := runRound env now r.1 rest
    (r2.1, r.2.1 ++ r2.2)

/-! ### Definitions taken from the specification's words (for comparison) -/

/-- Modelled from the spec claim: a line whose trimmed form starts with
exactly two header markers, i.e. its run of leading `#` has length exactly 2. -/
def specHeaderTwo (line : List Char) : Bool :=
  ((pyStrip line).takeWhile (fun c => c = '#')).length == 2

/-- Modelled from the spec claim (claim C5 as stated): sections start exactly
at lines whose trimmed form starts with exactly two `#`; the section name is
the header's trimmed, marker-stripped text; subsequent lines belong to that
section until the next such header, list-marker lines being retained. -/
def sectionsExactlyTwoAux :
    List (List Char) → Option (List Char) → List (List Char) → Sections → Sections
  | [], cur, content, sections =>
    match cur with
    | some n => upsert n content sections
    | none => sections
  | line :: rest, cur, content, sections =>
    if specHeaderTwo line then
      let sections' :=
        match cur with
        | some n => upsert n content sections
        | none => sections
      sectionsExactlyTwoAux rest (some (sectionName line)) [] sections'
    else
      match cur with
      | some n =>
        let stripped := pyStrip line
        if isListStart stripped then
          sectionsExactlyTwoAux rest (some n) (content ++ [stripped]) sections
        else
          sectionsExactlyTwoAux rest (some n) content sections
      | none => sectionsExactlyTwoAux rest cur content sections

/-- The markdown sectioning rule as claim C5 states it. -/
def sectionsExactlyTwo (body : List Char) : Sections :=
  sectionsExactlyTwoAux (splitLines body) none [] []

/-- Header test of the amended claim: the trimmed line starts with two or
more header markers. -/
def specHeaderAtLeastTwo (line : List Char) : Bool :=
  decide (2 ≤ ((pyStrip line).takeWhile (fun c => c = '#')).length)

/-- The amended sectioning rule: a new section starts at every line whose
trimmed form starts with two or more `#`; its name is the trimmed text with
all leading `#` stripped; a header whose stripped name is empty closes the
previous section but begins no recorded section and its lines are dropped;
within a section exactly the trimmed lines passing the list-marker test are
retained. -/
def sectionsAtLeastTwoAux :
    List (List Char) → Option (List Char) → List (List Char) → Sections → Sections
  | [], cur, content, sections =>
    match cur with
    | some n => if n.isEmpty then sections else upsert n content sections
    | none => sections
  | line :: rest, cur, content, sections =>
    if specHeaderAtLeastTwo line then
      let sections' :=
        match cur with
        | some n => if n.isEmpty then sections else upsert n content sections
        | none => sections
      sectionsAtLeastTwoAux rest (some (sectionName line)) [] sections'
    else
      match cur with
      | some n =>
        if n.isEmpty then sectionsAtLeastTwoAux rest (some n) content sections
        else
          let stripped := pyStrip line
          if keepLine stripped then
            sectionsAtLeastTwoAux rest (some n) (content ++ [stripped]) sections
          else
            sectionsAtLeastTwoAux rest (some n) content sections
      | none => sectionsAtLeastTwoAux rest cur content sections

/-- The amended claim's sectioning of a body. -/
def sectionsAtLeastTwo (body : List Char) : Sections :=
  sectionsAtLeastTwoAux (splitLines body) none [] []

/-- Same traversal as `parseLines` but recording, for each section, every raw
line of the section (no list-marker filtering): the lines that "belong to"
each section.  Used to state which lines the real parser retains. -/
def sectionsRawLines :
    List (List Char) → Option (List Char) → List (List Char) → Sections → Sections
  | [], cur, content, sections => flush cur content sections
  | line :: rest, cur, content, sections =>
    if ['#', '#'].isPrefixOf (pyStrip line) then
      sectionsRawLines rest (some (sectionName line)) [] (flush cur content sections)
    else
      match cur with
      | some (c :: cs) => sectionsRawLines rest (some (c :: cs)) (content ++ [line]) sections
      | _ => sectionsRawLines rest cur content sections

/-- The raw (unfiltered) sections of a body. -/
def sectionsRaw (body : List Char) : Sections :=
  sectionsRawLines (splitLines body) none [] []

/-- Modelled from the spec's words for claim C7: the first label equal to one
of `simple`, `medium`, `complex`. -/
def firstComplexityLabel : List String → Option String
  | [] => none
  | l :: ls =>
    if l = "simple" ∨ l = "medium" ∨ l = "complex" then some l else firstComplexityLabel ls

/-- Creation timestamps of the queue artifacts a trace publishes, in order. -/
def publishedCreatedAts (fx : List Effect) : List Nat :=
  fx.filterMap fun e =>
    match e with
    | .published _ _ c => some c
    | _ => none

/-- Every adjacent pair is weakly increasing. -/
def isAscending : List Nat → Bool
  | [] => true
  | [_] => true
  | a :: b :: t => decide (a ≤ b) && isAscending (b :: t)

/-- Write success in whichever queue directory `queue_task` resolves. -/
def allWritesOk (env : FsEnv) : Prop :=
  env.primaryMkdirOk = true ∧ ∀ f, env.primaryWrite f = true

/-! ### Concrete fixtures for witnesses and counterexamples -/

def cfgA : ProjectConfig :=
  ⟨"A", "Project A", "godot", "/srv/a", "github", "https://github.com/o/a",
    some "make test", none, none, none, none⟩

def cfgB : ProjectConfig :=
  ⟨"B", "Project B", "godot", "/srv/b", "github", "https://github.com/o/b",
    some "make test", none, none, none, none⟩

def cfgGL : ProjectConfig :=
  ⟨"G", "Project G", "godot", "/srv/g", "gitlab", "https://gitlab.com/o/g",
    some "make test", none, none, none, none⟩

def issueA : RawIssue := ⟨1, "fix a", [], ["ready"], "https://github.com/o/a/issues/1", 10⟩

def issueB : RawIssue := ⟨2, "fix b", [], ["ready"], "https://github.com/o/b/issues/2", 20⟩

def issueEarly : RawIssue := ⟨3, "older", [], ["ready"], "https://github.com/o/a/issues/3", 3⟩

def issueLate : RawIssue := ⟨4, "newer", [], ["ready"], "https://github.com/o/a/issues/4", 5⟩

def issueGL : RawIssue :=
  ⟨7, "fix g", [], ["ready", "bug"], "https://gitlab.com/o/g/-/issues/7", 30⟩

def st0 : WatcherState := ⟨[], []⟩

def envOK : FsEnv := ⟨true, true, fun _ => true, fun _ => true⟩

/-- Primary directory usable except for project A's first task file. -/
def envAFail : FsEnv :=
  ⟨true, true, fun f => if f = "/var/lib/lazy_birtd/queue/task-A-1.json" then false else true,
    fun _ => true⟩

/-- The system-wide queue directory exists (so `mkdir` raises nothing) but no
file inside it can be written: the permission failure hits `write_text`. -/
def envPrimaryUnwritable : FsEnv := ⟨true, true, fun _ => false, fun _ => true⟩

/-- Creating the system-wide queue directory raises `PermissionError`; the
user-scoped fallback is fully usable. -/
def envPrimaryMkdirDenied : FsEnv := ⟨false, true, fun _ => false, fun _ => true⟩

/-- The external GitLab API used by the C10 witness: the path lookup resolves
to numeric id 42, which owns one ready issue. -/
def apiW : GitLabApi := ⟨some 42, fun pid => if pid = 42 then [issueGL] else []⟩

/-- The retained lines of a section: trim every line, keep the list-marker
ones. -/
def filtKept (c : List (List Char)) : List (List Char) :=
  (c.map pyStrip).filter isListStart

/-- Apply `filtKept` to every section's lines. -/
def filtSections (s : Sections) : Sections :=
  s.map (fun p => (p.1, filtKept p.2))

/-! ### Helper lemmas: dedup set and queue -/

theorem mem_setAdd_self (p : List String) (k : String) : k ∈ setAdd p k := by
  unfold setAdd
  split
  · assumption
  · exact List.mem_append_right _ (List.mem_singleton.mpr rfl)

theorem mem_setAdd_of_mem {p : List String} {k : String} (k' : String) (h : k ∈ p) :
    k ∈ setAdd p k' := by
  unfold setAdd
  split
  · exact h
  · exact List.mem_append_left _ h

theorem queue_task_allOk {env : FsEnv} (h : allWritesOk env)
    (q : List (String × ParsedTask)) (t : ParsedTask) :
    queue_task env q t =
      .ok (writeFile q (primaryQueueDir ++ "/" ++ taskFileName t) t,
        primaryQueueDir ++ "/" ++ taskFileName t) := by
  simp [queue_task, h.1, h.2]

theorem processIssue_allOk {env : FsEnv} (h : allWritesOk env) (cfg : ProjectConfig)
    (now : String) (st : WatcherState) (issue : RawIssue) :
    processIssue env cfg now st issue =
      .ok ({ processed := setAdd st.processed (dedupKey cfg issue.id),
             queue := writeFile st.queue
               (primaryQueueDir ++ "/" ++ taskFileName (parse_issue now cfg issue))
               (parse_issue now cfg issue) },
        Effect.published (primaryQueueDir ++ "/" ++ taskFileName (parse_issue now cfg issue))
            issue.id issue.created_at ::
          (update_issue_labels cfg issue).map Effect.label ++
            [Effect.dedupAdded (dedupKey cfg issue.id)]) := by
  simp [processIssue, queue_task_allOk h]

theorem processIssue_ok_processed {env : FsEnv} {cfg : ProjectConfig} {now : String}
    {st : WatcherState} {issue : RawIssue} {r : WatcherState × List Effect}
    (h : processIssue env cfg now st issue = .ok r) :
    r.1.processed = setAdd st.processed (dedupKey cfg issue.id) := by
  simp only [processIssue] at h
  cases hq : queue_task env st.queue (parse_issue now cfg issue) with
  | error e => rw [hq] at h; simp at h
  | ok p =>
    rw [hq] at h
    injection h with h
    rw [← h]

theorem processIssues_mono (env : FsEnv) (cfg : ProjectConfig) (now : String) :
    ∀ (l : List RawIssue) (st : WatcherState) {k : String}, k ∈ st.processed →
      k ∈ (processIssues env cfg now st l).1.processed := by
  intro l
  induction l with
  | nil => intro st k h; simpa [processIssues] using h
  | cons i rest ih =>
    intro st k h
    simp only [processIssues]
    cases hq : processIssue env cfg now st i with
    | error e => simpa using h
    | ok r =>
      simp only []
      exact ih r.1 (by rw [processIssue_ok_processed hq]; exact mem_setAdd_of_mem _ h)

theorem processIssues_adds {env : FsEnv} (h : allWritesOk env) (cfg : ProjectConfig)
    (now : String) :
    ∀ (l : List RawIssue) (st : WatcherState) (i : RawIssue), i ∈ l →
      dedupKey cfg i.id ∈ (processIssues env cfg now st l).1.processed := by
  intro l
  induction l with
  | nil => intro st i hi; cases hi
  | cons j rest ih =>
    intro st i hi
    simp only [processIssues, processIssue_allOk h cfg now st j]
    rcases List.mem_cons.mp hi with rfl | hi'
    · exact processIssues_mono env cfg now rest _ (mem_setAdd_self _ _)
    · exact ih _ i hi'

theorem processProject_covers {env : FsEnv} (h : allWritesOk env) (cfg : ProjectConfig)
    (now : String) (st : WatcherState) (fetched : List RawIssue) :
    ∀ i ∈ fetched, dedupKey cfg i.id ∈ (processProject env cfg now st fetched).1.processed := by
  intro i hi
  simp only [processProject]
  by_cases hk : dedupKey cfg i.id ∈ st.processed
  · exact processIssues_mono env cfg now _ st hk
  · apply processIssues_adds h
    simp [filterNew, List.mem_filter, hi, hk]

theorem filterNew_nil_of_covered {cfg : ProjectConfig} {processed : List String}
    {fetched : List RawIssue} (h : ∀ i ∈ fetched, dedupKey cfg i.id ∈ processed) :
    filterNew cfg processed fetched = [] := by
  simp only [filterNew, List.filter_eq_nil_iff]
  intro i hi
  simpa using h i hi

theorem processProject_of_covered (env : FsEnv) (cfg : ProjectConfig) (now : String)
    (st : WatcherState) (fetched : List RawIssue)
    (h : ∀ i ∈ fetched, dedupKey cfg i.id ∈ st.processed) :
    processProject env cfg now st fetched = (st, [Effect.fetched cfg.id], false) := by
  simp [processProject, filterNew_nil_of_covered h, processIssues]

/-! ### Helper lemmas: the round loop -/

theorem runRound_append (env : FsEnv) (now : String) :
    ∀ (xs ys : List (ProjectConfig × List RawIssue)) (st : WatcherState),
      runRound env now st (xs ++ ys) =
        ((runRound env now (runRound env now st xs).1 ys).1,
          (runRound env now st xs).2 ++ (runRound env now (runRound env now st xs).1 ys).2) := by
  intro xs
  induction xs with
  | nil => intro ys st; simp [runRound]
  | cons p rest ih =>
    intro ys st
    cases p with
    | mk cfg fetched =>
      simp only [List.cons_append, runRound, List.append_eq]
      rw [ih]
      simp [List.append_assoc]

theorem runRound_fetched_mem (env : FsEnv) (now : String) :
    ∀ (l : List (ProjectConfig × List RawIssue)) (st : WatcherState) (b : ProjectConfig)
      (fb : List RawIssue), (b, fb) ∈ l →
      Effect.fetched b.id ∈ (runRound env now st l).2 := by
  intro l
  induction l with
  | nil => intro st b fb h; cases h
  | cons p rest ih =>
    intro st b fb h
    rcases List.mem_cons.mp h with rfl | h'
    · simp [runRound, processProject]
    · cases p with
      | mk cfg fetched =>
        simp only [runRound]
        exact List.mem_append_right _ (ih _ b fb h')

/-! ### Helper lemmas: publish traces and ordering -/

theorem publishedCreatedAts_append (fx fx' : List Effect) :
    publishedCreatedAts (fx ++ fx') = publishedCreatedAts fx ++ publishedCreatedAts fx' :=
  List.filterMap_append _ _ _

theorem publishedCreatedAts_cons_published (f : String) (n c : Nat) (l : List Effect) :
    publishedCreatedAts (Effect.published f n c :: l) = c :: publishedCreatedAts l := by
  simp [publishedCreatedAts, List.filterMap_cons]

theorem publishedCreatedAts_cons_fetched (p : String) (l : List Effect) :
    publishedCreatedAts (Effect.fetched p :: l) = publishedCreatedAts l := by
  simp [publishedCreatedAts, List.filterMap_cons]

theorem publishedCreatedAts_cons_dedup (k : String) (l : List Effect) :
    publishedCreatedAts (Effect.dedupAdded k :: l) = publishedCreatedAts l := by
  simp [publishedCreatedAts, List.filterMap_cons]

theorem publishedCreatedAts_labels (l : List LabelEffect) :
    publishedCreatedAts (l.map Effect.label) = [] := by
  induction l with
  | nil => rfl
  | cons e t ih => simp only [List.map_cons, publishedCreatedAts, List.filterMap_cons] at *; exact ih

theorem processIssues_published {env : FsEnv} (h : allWritesOk env) (cfg : ProjectConfig)
    (now : String) :
    ∀ (l : List RawIssue) (st : WatcherState),
      publishedCreatedAts (processIssues env cfg now st l).2.1 = l.map RawIssue.created_at := by
  intro l
  induction l with
  | nil => intro st; rfl
  | cons i rest ih =>
    intro st
    simp only [processIssues, processIssue_allOk h cfg now st i]
    simp only [List.cons_append, List.append_assoc, List.nil_append]
    rw [publishedCreatedAts_cons_published, publishedCreatedAts_append,
      publishedCreatedAts_labels, publishedCreatedAts_cons_dedup, ih]
    simp

theorem processProject_published {env : FsEnv} (h : allWritesOk env) (cfg : ProjectConfig)
    (now : String) (st : WatcherState) (fetched : List RawIssue) :
    publishedCreatedAts (processProject env cfg now st fetched).2.1 =
      (filterNew cfg st.processed fetched).map RawIssue.created_at := by
  simp only [processProject]
  simpa [publishedCreatedAts, List.filterMap_cons] using
    processIssues_published h cfg now (filterNew cfg st.processed fetched) st

theorem isAscending_iff_chain :
    ∀ l : List Nat, isAscending l = true ↔ List.Chain' (fun a b : Nat => a ≤ b) l := by
  intro l
  match l with
  | [] => simp [isAscending]
  | [a] => simp [isAscending]
  | a :: b :: t =>
    have ih := isAscending_iff_chain (b :: t)
    simp [isAscending, List.chain'_cons, ih, and_comm]

theorem isAscending_sublist {l l' : List Nat} (hs : List.Sublist l' l)
    (h : isAscending l = true) :
    isAscending l' = true := by
  rw [isAscending_iff_chain] at h ⊢
  rw [List.chain'_iff_pairwise] at h ⊢
  exact h.sublist hs

/-! ### Claim theorems -/

/-- C1: once an issue's dedup key is in the processed set, a later round over
the same fetched list skips it before parsing or publishing; reprocessing the
same fetched list leaves the queue and the dedup set unchanged and produces
no publish, label, or dedup-add effect. -/
theorem spec_c1_idempotent (env : FsEnv) (cfg : ProjectConfig) (now : String)
    (st : WatcherState) (fetched : List RawIssue) (h : allWritesOk env) :
    (processProject env cfg now (processProject env cfg now st fetched).1 fetched).1 =
        (processProject env cfg now st fetched).1 ∧
    (processProject env cfg now (processProject env cfg now st fetched).1 fetched).2.1 =
        [Effect.fetched cfg.id] ∧
    ∀ i ∈ fetched, dedupKey cfg i.id ∈ st.processed →
        i ∉ filterNew cfg st.processed fetched := by
  have hcov := processProject_covers h cfg now st fetched
  have hstep :=
    processProject_of_covered env cfg now (processProject env cfg now st fetched).1 fetched hcov
  refine ⟨by rw [hstep], by rw [hstep], ?_⟩
  intro i hi hk
  simp [filterNew, List.mem_filter, hk]

theorem spec_c1_idempotent_witness :
    (processProject envOK cfgA "T" (processProject envOK cfgA "T" st0 [issueA]).1 [issueA]).1 =
        (processProject envOK cfgA "T" st0 [issueA]).1 ∧
    (processProject envOK cfgA "T" (processProject envOK cfgA "T" st0 [issueA]).1 [issueA]).2.1 =
        [Effect.fetched cfgA.id] :=
  ⟨(spec_c1_idempotent envOK cfgA "T" st0 [issueA] ⟨rfl, fun _ => rfl⟩).1,
    (spec_c1_idempotent envOK cfgA "T" st0 [issueA] ⟨rfl, fun _ => rfl⟩).2.1⟩

/-- C2: if processing one project raises (the boolean of its project slice is
true, i.e. the `except` at the project boundary fired), the round still
decomposes past it and every project configured after it is still fetched
and processed in the same round. -/
theorem spec_c2_isolation (env : FsEnv) (now : String) (st : WatcherState)
    (pre : List (ProjectConfig × List RawIssue)) (a : ProjectConfig) (fa : List RawIssue)
    (post : List (ProjectConfig × List RawIssue))
    (_hfail : (processProject env a now (runRound env now st pre).1 fa).2.2 = true) :
    (runRound env now st (pre ++ (a, fa) :: post)).2 =
        (runRound env now st pre).2 ++
          ((processProject env a now (runRound env now st pre).1 fa).2.1 ++
            (runRound env now (processProject env a now (runRound env now st pre).1 fa).1
              post).2) ∧
    ∀ b fb, (b, fb) ∈ post →
        Effect.fetched b.id ∈
          (runRound env now (processProject env a now (runRound env now st pre).1 fa).1
            post).2 := by
  constructor
  · rw [runRound_append]
    simp [runRound]
  · intro b fb hb
    exact runRound_fetched_mem env now post _ b fb hb

theorem spec_c2_isolation_witness :
    Effect.fetched cfgB.id ∈
      (runRound envAFail "T" (processProject envAFail cfgA "T" st0 [issueA]).1
        [(cfgB, [issueB])]).2 :=
  (spec_c2_isolation envAFail "T" st0 [] cfgA [issueA] [(cfgB, [issueB])] (by decide)).2
    cfgB [issueB] (List.mem_singleton.mpr rfl)

/-- C4: a failed durable write propagates as an error to the project boundary,
the issue's dedup key is not added, the state is untouched, and the issue
remains eligible (it would survive the dedup filter again). -/
theorem spec_c4_publish_failure (env : FsEnv) (cfg : ProjectConfig) (now : String)
    (st : WatcherState) (issue : RawIssue)
    (hmk : env.primaryMkdirOk = true)
    (hw : env.primaryWrite
      (primaryQueueDir ++ "/" ++ taskFileName (parse_issue now cfg issue)) = false)
    (hnew : dedupKey cfg issue.id ∉ st.processed) :
    processProject env cfg now st [issue] = (st, [Effect.fetched cfg.id], true) ∧
    dedupKey cfg issue.id ∉ (processProject env cfg now st [issue]).1.processed ∧
    filterNew cfg (processProject env cfg now st [issue]).1.processed [issue] = [issue] := by
  have hq : queue_task env st.queue (parse_issue now cfg issue) = .error () := by
    simp [queue_task, hmk, hw]
  have hpi : processIssue env cfg now st issue = .error () := by
    simp [processIssue, hq]
  have hfil : filterNew cfg st.processed [issue] = [issue] := by
    simp [filterNew, hnew]
  have hpp : processProject env cfg now st [issue] = (st, [Effect.fetched cfg.id], true) := by
    simp [processProject, hfil, processIssues, hpi]
  exact ⟨hpp, by rw [hpp]; exact hnew, by rw [hpp]; exact hfil⟩

theorem spec_c4_publish_failure_witness :
    processProject envAFail cfgA "T" st0 [issueA] = (st0, [Effect.fetched cfgA.id], true) ∧
    dedupKey cfgA issueA.id ∉ (processProject envAFail cfgA "T" st0 [issueA]).1.processed ∧
    filterNew cfgA (processProject envAFail cfgA "T" st0 [issueA]).1.processed [issueA] =
      [issueA] :=
  spec_c4_publish_failure envAFail cfgA "T" st0 issueA rfl (by decide) (by decide)

/-- C3 counterexample: a fetched list that is out of creation order is
published in fetch order, not ascending `created_at` order — the loop never
re-sorts.  Here the client returns the issue created at 5 before the one
created at 3; both survive the (empty) dedup filter and are published as
`[5, 3]`. -/
theorem spec_c3_counterexample :
    publishedCreatedAts (processProject envOK cfgA "T" st0 [issueLate, issueEarly]).2.1 =
        [5, 3] ∧
    isAscending (publishedCreatedAts
      (processProject envOK cfgA "T" st0 [issueLate, issueEarly]).2.1) = false := by
  constructor <;> decide

/-- C3 amended: surviving issues are published exactly in the order the
Platform Client returned them; hence whenever the fetched list is ascending
by creation time (as the API query requests), the publish order is ascending
too. -/
theorem spec_c3_fetch_order (env : FsEnv) (cfg : ProjectConfig) (now : String)
    (st : WatcherState) (fetched : List RawIssue) (h : allWritesOk env)
    (hasc : isAscending (fetched.map RawIssue.created_at) = true) :
    publishedCreatedAts (processProject env cfg now st fetched).2.1 =
        (filterNew cfg st.processed fetched).map RawIssue.created_at ∧
    isAscending (publishedCreatedAts (processProject env cfg now st fetched).2.1) = true := by
  have hp := processProject_published h cfg now st fetched
  refine ⟨hp, ?_⟩
  rw [hp]
  exact isAscending_sublist ((List.filter_sublist _).map _) hasc

theorem spec_c3_fetch_order_witness :
    publishedCreatedAts (processProject envOK cfgA "T" st0 [issueEarly, issueLate]).2.1 =
        (filterNew cfgA st0.processed [issueEarly, issueLate]).map RawIssue.created_at ∧
    isAscending (publishedCreatedAts
      (processProject envOK cfgA "T" st0 [issueEarly, issueLate]).2.1) = true :=
  spec_c3_fetch_order envOK cfgA "T" st0 [issueEarly, issueLate]
    ⟨rfl, fun _ => rfl⟩ (by decide)

/-- C7: the parsed complexity is the first label equal to one of `simple`,
`medium`, `complex`, defaulting to `medium`; in particular labels
`["ready", "bug"]` give `medium` and `["ready", "complex"]` give `complex`. -/
theorem spec_c7_complexity :
    (∀ (now : String) (cfg : ProjectConfig) (issue : RawIssue),
      (parse_issue now cfg issue).complexity =
        (firstComplexityLabel issue.labels).getD "medium") ∧
    (parse_issue "T" cfgA ⟨5, "t", [], ["ready", "bug"], "u", 1⟩).complexity = "medium" ∧
    (parse_issue "T" cfgA ⟨6, "t", [], ["ready", "complex"], "u", 1⟩).complexity = "complex" := by
  refine ⟨fun now cfg issue => ?_, by decide, by decide⟩
  have hfind : ∀ labels : List String,
      labels.find? (fun l => l = "simple" || l = "medium" || l = "complex") =
        firstComplexityLabel labels := by
    intro labels
    induction labels with
    | nil => rfl
    | cons l ls ih =>
      simp only [List.find?, firstComplexityLabel]
      by_cases hc : l = "simple" ∨ l = "medium" ∨ l = "complex"
      · have hb : (l = "simple" || l = "medium" || l = "complex" : Bool) = true := by
          rcases hc with h | h | h <;> simp [h]
        rw [hb]
        simp [hc]
      · have hb : (l = "simple" || l = "medium" || l = "complex" : Bool) = false := by
          push_neg at hc
          simp [hc.1, hc.2.1, hc.2.2]
        rw [hb]
        simp [hc, ih]
  simp [parse_issue, complexityOf, hfind]

/-- C8 counterexample: when the system-wide queue directory exists but is not
writable, the `PermissionError` hits `write_text`, not the guarded `mkdir`,
so `queue_task` does not fall back: it propagates the error instead of
transparently succeeding in the user-scoped directory. -/
theorem spec_c8_counterexample :
    queue_task envPrimaryUnwritable [] (parse_issue "T" cfgA issueA) = .error () := rfl

/-- C8 amended: the fallback fires exactly when creating the system-wide
queue directory raises `PermissionError`; then (with the user-scoped
directory usable) publish succeeds and the artifact location reflects the
fallback directory. -/
theorem spec_c8_fallback (env : FsEnv) (q : List (String × ParsedTask)) (t : ParsedTask)
    (hp : env.primaryMkdirOk = false) (hf : env.fallbackMkdirOk = true)
    (hw : env.fallbackWrite (fallbackQueueDir ++ "/" ++ taskFileName t) = true) :
    queue_task env q t =
      .ok (writeFile q (fallbackQueueDir ++ "/" ++ taskFileName t) t,
        fallbackQueueDir ++ "/" ++ taskFileName t) := by
  simp [queue_task, hp, hf, hw]

theorem spec_c8_fallback_witness :
    queue_task envPrimaryMkdirDenied [] (parse_issue "T" cfgA issueA) =
      .ok (writeFile [] (fallbackQueueDir ++ "/" ++ taskFileName (parse_issue "T" cfgA issueA))
          (parse_issue "T" cfgA issueA),
        fallbackQueueDir ++ "/" ++ taskFileName (parse_issue "T" cfgA issueA)) :=
  spec_c8_fallback envPrimaryMkdirDenied [] (parse_issue "T" cfgA issueA) rfl rfl rfl

/-- C9 counterexample: `parse_issue` stamps `queued_at` with
`datetime.utcnow()` (the `now` parameter of the embedding), so two runs on
the same body and labels at different instants yield different `ParsedTask`
values — the output is not determined by the input alone. -/
theorem spec_c9_counterexample :
    parse_issue "2024-01-01T00:00:00" cfgA issueA ≠
      parse_issue "2024-01-01T00:00:01" cfgA issueA := by decide

/-- C9 amended: `parse_issue` is total and, apart from the `queued_at`
timestamp, a deterministic function of its input; missing `Detailed Steps`
or `Acceptance Criteria` sections yield empty sequences rather than errors. -/
theorem spec_c9_parse_deterministic (t1 t2 : String) (cfg : ProjectConfig)
    (issue : RawIssue) :
    { parse_issue t1 cfg issue with queued_at := "" } =
      { parse_issue t2 cfg issue with queued_at := "" } ∧
    ((parse_markdown_sections issue.body).find?
        (fun p => p.1 = "Detailed Steps".toList) = none →
      (parse_issue t1 cfg issue).steps = []) ∧
    ((parse_markdown_sections issue.body).find?
        (fun p => p.1 = "Acceptance Criteria".toList) = none →
      (parse_issue t1 cfg issue).acceptance_criteria = []) := by
  refine ⟨rfl, ?_, ?_⟩
  · intro h
    simp only [parse_issue, sectionsGet]
    rw [h]
  · intro h
    simp only [parse_issue, sectionsGet]
    rw [h]

theorem spec_c9_parse_deterministic_witness :
    { parse_issue "t1" cfgA issueA with queued_at := "" } =
      { parse_issue "t2" cfgA issueA with queued_at := "" } ∧
    (parse_issue "t1" cfgA issueA).steps = [] :=
  ⟨(spec_c9_parse_deterministic "t1" "t2" cfgA issueA).1,
    (spec_c9_parse_deterministic "t1" "t2" cfgA issueA).2.1 (by decide)⟩

/-- C10: for a GitLab project with no configured numeric `project_id`, the
label transition performs no mutation at all, even though the fetch path can
resolve the numeric id by API lookup; the issue is nevertheless queued and
its dedup key recorded. -/
theorem spec_c10_gitlab_no_pid (env : FsEnv) (api : GitLabApi) (cfg : ProjectConfig)
    (now : String) (st : WatcherState) (issue : RawIssue)
    (hplat : cfg.platform = "gitlab") (hpid : cfg.gitlab_project_id = none)
    (hok : allWritesOk env) (hnew : dedupKey cfg issue.id ∉ st.processed) :
    update_issue_labels cfg issue = [] ∧
    (∀ pid, api.lookupId = some pid → fetch_gitlab_issues api cfg = api.issuesFor pid) ∧
    (∀ e, Effect.label e ∉ (processProject env cfg now st [issue]).2.1) ∧
    dedupKey cfg issue.id ∈ (processProject env cfg now st [issue]).1.processed ∧
    Effect.published (primaryQueueDir ++ "/" ++ taskFileName (parse_issue now cfg issue))
        issue.id issue.created_at ∈ (processProject env cfg now st [issue]).2.1 := by
  have hupd : update_issue_labels cfg issue = [] := by
    simp [update_issue_labels, hplat, update_gitlab_labels, configuredGitlabId, hpid]
  have hfil : filterNew cfg st.processed [issue] = [issue] := by
    simp [filterNew, hnew]
  have hpp : processProject env cfg now st [issue] =
      ({ processed := setAdd st.processed (dedupKey cfg issue.id),
         queue := writeFile st.queue
           (primaryQueueDir ++ "/" ++ taskFileName (parse_issue now cfg issue))
           (parse_issue now cfg issue) },
        [Effect.fetched cfg.id,
          Effect.published (primaryQueueDir ++ "/" ++ taskFileName (parse_issue now cfg issue))
            issue.id issue.created_at,
          Effect.dedupAdded (dedupKey cfg issue.id)], false) := by
    simp [processProject, hfil, processIssues, processIssue_allOk hok, hupd]
  refine ⟨hupd, ?_, ?_, ?_, ?_⟩
  · intro pid hl
    simp [fetch_gitlab_issues, configuredGitlabId, hpid, hl]
  · intro e
    rw [hpp]
    simp
  · rw [hpp]
    exact mem_setAdd_self _ _
  · rw [hpp]
    simp

theorem spec_c10_gitlab_no_pid_witness :
    update_issue_labels cfgGL issueGL = [] ∧
    fetch_gitlab_issues apiW cfgGL = apiW.issuesFor 42 ∧
    dedupKey cfgGL issueGL.id ∈ (processProject envOK cfgGL "T" st0 [issueGL]).1.processed :=
  ⟨(spec_c10_gitlab_no_pid envOK apiW cfgGL "T" st0 issueGL rfl rfl ⟨rfl, fun _ => rfl⟩
      (by decide)).1,
    (spec_c10_gitlab_no_pid envOK apiW cfgGL "T" st0 issueGL rfl rfl ⟨rfl, fun _ => rfl⟩
      (by decide)).2.1 42 rfl,
    (spec_c10_gitlab_no_pid envOK apiW cfgGL "T" st0 issueGL rfl rfl ⟨rfl, fun _ => rfl⟩
      (by decide)).2.2.2.1⟩

/-! ### Helper lemmas: the markdown sectioning -/

/-- The test `startswith('##')` is exactly "the run of leading `#` has length at least
two". -/
theorem isPrefixOf_hash2_eq (s : List Char) :
    (['#', '#'].isPrefixOf s) = decide (2 ≤ (s.takeWhile (fun c => c = '#')).length) := by
  match s with
  | [] => rfl
  | [a] =>
    by_cases h : a = '#' <;> simp [List.isPrefixOf, List.takeWhile_cons, h]
  | a :: b :: t =>
    by_cases ha : a = '#'
    · by_cases hb : b = '#'
      · have h2 : 2 ≤ (t.takeWhile (fun c => c = '#')).length + 1 + 1 := by omega
        simp [List.isPrefixOf, List.takeWhile_cons, ha, hb, h2]
      · simp [List.isPrefixOf, List.takeWhile_cons, ha, hb]
        exact fun h => hb h.symm
    · simp [List.isPrefixOf, List.takeWhile_cons, ha]
      exact fun h => absurd h.symm ha

/-- The saving clause of the spec-side fold agrees with the code's `flush`. -/
theorem flush_eq_spec (cur : Option (List Char)) (content : List (List Char))
    (sections : Sections) :
    (match cur with
      | some n => if n.isEmpty then sections else upsert n content sections
      | none => sections) = flush cur content sections := by
  match cur with
  | none => rfl
  | some [] => rfl
  | some (c :: cs) => rfl

theorem parseLines_eq_atLeastTwo :
    ∀ (lines : List (List Char)) (cur : Option (List Char)) (content : List (List Char))
      (sections : Sections),
      sectionsAtLeastTwoAux lines cur content sections = parseLines lines cur content sections := by
  intro lines
  induction lines with
  | nil =>
    intro cur content sections
    simp only [sectionsAtLeastTwoAux, parseLines]
    exact flush_eq_spec cur content sections
  | cons line rest ih =>
    intro cur content sections
    simp only [sectionsAtLeastTwoAux, parseLines, specHeaderAtLeastTwo]
    rw [← isPrefixOf_hash2_eq (pyStrip line)]
    by_cases hh : (['#', '#'].isPrefixOf (pyStrip line)) = true
    · simp only [hh, if_true]
      rw [flush_eq_spec]
      exact ih _ _ _
    · rw [Bool.not_eq_true] at hh
      simp only [hh, Bool.false_eq_true, if_false]
      cases cur with
      | none => exact ih _ _ _
      | some n =>
        cases n with
        | nil => simp only [List.isEmpty_nil, if_true]; exact ih _ _ _
        | cons c cs =>
          simp only [List.isEmpty_cons, if_false, Bool.false_eq_true]
          by_cases hk : keepLine (pyStrip line) = true
          · simp only [hk, if_true]
            exact ih _ _ _
          · rw [Bool.not_eq_true] at hk
            simp only [hk, Bool.false_eq_true, if_false]
            exact ih _ _ _

/-- The empty stripped line already fails the marker test, so the Python
truthiness conjunct of line 242 is redundant. -/
theorem keepLine_eq (s : List Char) : keepLine s = isListStart s := by
  match s with
  | [] => rfl
  | c :: t => simp [keepLine]

theorem upsert_filtSections (k : List Char) (v : List (List Char)) :
    ∀ s : Sections,
      upsert k (filtKept v) (filtSections s) = filtSections (upsert k v s) := by
  intro s
  induction s with
  | nil => rfl
  | cons p rest ih =>
    cases p with
    | mk k' v' =>
      by_cases h : k' = k
      · simp [upsert, filtSections, h]
      · have ih' : upsert k (filtKept v) (List.map (fun p => (p.1, filtKept p.2)) rest) =
            List.map (fun p => (p.1, filtKept p.2)) (upsert k v rest) := by
          simpa [filtSections] using ih
        simp [upsert, filtSections, h, ih']

theorem flush_filtSections (cur : Option (List Char)) (content : List (List Char))
    (s : Sections) :
    flush cur (filtKept content) (filtSections s) = filtSections (flush cur content s) := by
  cases cur with
  | none => rfl
  | some n =>
    cases n with
    | nil => rfl
    | cons c cs => exact upsert_filtSections _ content s

theorem filtKept_append_line (content : List (List Char)) (line : List Char) :
    filtKept (content ++ [line]) =
      filtKept content ++ (if keepLine (pyStrip line) = true then [pyStrip line] else []) := by
  simp only [filtKept, List.map_append, List.map_cons, List.map_nil, List.filter_append]
  congr 1
  simp only [List.filter_cons, List.filter_nil]
  rw [← keepLine_eq]

theorem parseLines_eq_raw :
    ∀ (lines : List (List Char)) (cur : Option (List Char)) (content : List (List Char))
      (sections : Sections),
      parseLines lines cur (filtKept content) (filtSections sections) =
        filtSections (sectionsRawLines lines cur content sections) := by
  intro lines
  induction lines with
  | nil =>
    intro cur content sections
    simp only [parseLines, sectionsRawLines]
    exact flush_filtSections cur content sections
  | cons line rest ih =>
    intro cur content sections
    simp only [parseLines, sectionsRawLines]
    by_cases hh : (['#', '#'].isPrefixOf (pyStrip line)) = true
    · simp only [hh, if_true]
      rw [flush_filtSections]
      have := ih (some (sectionName line)) [] (flush cur content sections)
      simpa [filtKept] using this
    · rw [Bool.not_eq_true] at hh
      simp only [hh, Bool.false_eq_true, if_false]
      cases cur with
      | none => exact ih _ _ _
      | some n =>
        cases n with
        | nil => exact ih _ _ _
        | cons c cs =>
          by_cases hk : keepLine (pyStrip line) = true
          · simp only [hk, if_true]
            have := ih (some (c :: cs)) (content ++ [line]) sections
            rw [filtKept_append_line, if_pos hk] at this
            exact this
          · rw [Bool.not_eq_true] at hk
            simp only [hk, Bool.false_eq_true, if_false]
            have := ih (some (c :: cs)) (content ++ [line]) sections
            rw [filtKept_append_line, if_neg (by simp [hk])] at this
            simpa using this

theorem parseLines_no_header :
    ∀ (lines : List (List Char)),
      (∀ l ∈ lines, ['#', '#'].isPrefixOf (pyStrip l) = false) →
      ∀ (content : List (List Char)) (sections : Sections),
        parseLines lines none content sections = sections := by
  intro lines
  induction lines with
  | nil => intro _ content sections; rfl
  | cons line rest ih =>
    intro h content sections
    have h1 := h line (List.mem_cons_self _ _)
    simp only [parseLines, h1, Bool.false_eq_true, if_false]
    exact ih (fun l hl => h l (List.mem_cons_of_mem _ hl)) content sections

/-- C5 counterexample: the code's header test is `startswith('##')`, so the
line `### A` — whose trimmed form starts with three `#` — does start a
section (named `A`, all leading markers stripped), while the claim's
exactly-two rule yields no section at all for this body. -/
theorem spec_c5_counterexample :
    parse_markdown_sections ("### A\n- b".toList) = [("A".toList, ["- b".toList])] ∧
    sectionsExactlyTwo ("### A\n- b".toList) = [] := by
  constructor <;> decide

/-- C5 amended: a new section starts exactly at lines whose trimmed form
starts with two or more `#`; its name is the trimmed text with all leading
`#` stripped; an empty name yields no recorded section; subsequent lines
belong to the current section until the next such header. -/
theorem spec_c5_header_rule (body : List Char) :
    parse_markdown_sections body = sectionsAtLeastTwo body :=
  (parseLines_eq_atLeastTwo (splitLines body) none [] []).symm

/-- C6: within each section exactly the trimmed lines passing the list-marker
test (digit 1-9 plus period, dash, asterisk, `[ ]` or `[x]` box) are
retained; the example body yields `steps == ["1. do X", "- extra note"]`;
and a body with no `##` headers yields empty steps and acceptance criteria. -/
theorem spec_c6_list_retention :
    (∀ body : List Char, parse_markdown_sections body = filtSections (sectionsRaw body)) ∧
    (parse_issue "T" cfgA
        ⟨9, "t", "## Detailed Steps\n1. do X\n- extra note".toList, [], "u", 1⟩).steps =
      ["1. do X".toList, "- extra note".toList] ∧
    (∀ (now : String) (cfg : ProjectConfig) (issue : RawIssue),
      (∀ l ∈ splitLines issue.body, ['#', '#'].isPrefixOf (pyStrip l) = false) →
      (parse_issue now cfg issue).steps = [] ∧
      (parse_issue now cfg issue).acceptance_criteria = []) := by
  refine ⟨?_, by decide, ?_⟩
  · intro body
    exact parseLines_eq_raw (splitLines body) none [] []
  · intro now cfg issue h
    have hsec : parse_markdown_sections issue.body = [] :=
      parseLines_no_header (splitLines issue.body) h [] []
    constructor <;> simp [parse_issue, sectionsGet, hsec, List.find?]

theorem spec_c6_list_retention_witness :
    (parse_issue "T" cfgA ⟨9, "t", "plain prose\nmore prose".toList, [], "u", 1⟩).steps = [] ∧
    (parse_issue "T" cfgA
        ⟨9, "t", "plain prose\nmore prose".toList, [], "u", 1⟩).acceptance_criteria = [] :=
  spec_c6_list_retention.2.2 "T" cfgA ⟨9, "t", "plain prose\nmore prose".toList, [], "u", 1⟩
    (by decide)
